import Mathlib

/-!
Verification of the Whisnote chunked-transcription pipeline.

Shallow embedding of the algorithmic core of the repository:
`src/utils/audio_splitter.py` (chunk planning and audio splitting) and
`src/core/transcriber.py` (adequacy heuristics, timestamped punctuation
repair, overlap merge, transcript combination, large-file aggregation).

Python floats are idealised as rationals (`ℚ`); sample counts and indices
are naturals. Python `int(x)` on a non-negative float is the floor.
-/

namespace Whisnote

/-! ### Configuration constants (`src/utils/config.py`) -/

def MAX_FILE_SIZE_MB : ℕ := 25

def CHUNK_OVERLAP_SECONDS : ℕ := 3

/-- Source: `self.max_size_bytes = Config.MAX_FILE_SIZE_MB * 1024 * 1024`. -/
def max_size_bytes : ℕ := MAX_FILE_SIZE_MB * 1024 * 1024

/-! ### Audio splitter (`src/utils/audio_splitter.py`) -/

/-- One produced chunk: its 0-based index and the half-open sample range
`[start_sample, end_sample)` extracted from the source buffer. -/
structure Chunk where
  index : ℕ
  start_sample : ℕ
  end_sample : ℕ
deriving Repr, DecidableEq

/-- Embedding of `AudioSplitter.calculate_chunk_duration`: metadata is
`some (file_size_bytes, total_duration_seconds)` when the sound file can be
read, `none` when reading fails.  A zero duration or zero size raises a
`ZeroDivisionError` in the source, which the `except` clause turns into the
240-second fallback, so those cases are folded into the fallback branch. -/
def calculate_chunk_duration (meta : Option (ℚ × ℚ)) : ℚ :=
  match meta with
  | none => 240
  | some (file_size, total_duration) =>
    if 0 < total_duration ∧ 0 < file_size then
      let bytes_per_second := file_size / total_duration
      let max_chunk_duration := ((max_size_bytes : ℚ) * (9 / 10)) / bytes_per_second
      max 60 (min 300 max_chunk_duration)
    else 240

/-- The `while chunk_start < len(audio_data)` loop of
`AudioSplitter.split_audio_file`, over total sample count `S`,
`chunk_samples` `C` and `overlap_samples` `O`.  The loop body computes
`chunk_end = min(chunk_start + chunk_samples, total)`, emits the chunk,
breaks once `chunk_end` reaches the total, and otherwise continues from
`chunk_end - overlap_samples` with the next index.  `fuel` bounds the
iteration count; `splitLoop_fuel_irrelevant` below shows any fuel of at
least `S` computes the loop's actual result. -/
def splitLoop (S C O : ℕ) : ℕ → ℕ → ℕ → List Chunk
  | 0, _, _ => []
  | fuel + 1, chunk_start, chunk_index =>
    if chunk_start < S then
      let chunk_end := min (chunk_start + C) S
      if S ≤ chunk_end then
        [⟨chunk_index, chunk_start, chunk_end⟩]
      else
        ⟨chunk_index, chunk_start, chunk_end⟩ ::
          splitLoop S C O fuel (chunk_end - O) (chunk_index + 1)
    else []

/-- Embedding of `AudioSplitter.split_audio_file`, abstracted over the computed sample
parameters: start at sample 0 with index 0.  Fuel `S + 1` dominates the
iteration count (the start position advances by at least one sample per
iteration once `O < C`). -/
def split_audio_file (S C O : ℕ) : List Chunk :=
  splitLoop S C O (S + 1) 0 0

/-- Source: `overlap_samples = int(self.overlap_seconds * sample_rate)`; both factors
are integers, so this is exact. -/
def overlapSamplesOf (sample_rate : ℕ) : ℕ := CHUNK_OVERLAP_SECONDS * sample_rate

/-- Source: `chunk_samples = int(chunk_duration * sample_rate)`: truncation of a
non-negative value, i.e. the floor. -/
def chunkSamplesOf (chunk_duration : ℚ) (sample_rate : ℕ) : ℕ :=
  (⌊chunk_duration * (sample_rate : ℚ)⌋).toNat

/-! ### Text heuristics (`src/core/transcriber.py`) -/

/-- The character set of `_has_adequate_punctuation` (line 524).  The Python
literal `'。，！？；：""''（）【】《》、'` is two adjacent string literals, so the
set holds these 14 characters (with the ASCII double quote, no apostrophe). -/
def punctuation_chars : List Char :=
  ['。', '，', '！', '？', '；', '：', '"', '（', '）', '【', '】', '《', '》', '、']

/-- Source: `sum(1 for char in text if char in punctuation_chars)`. -/
def punctuationCount (text : String) : ℕ :=
  (text.data.filter (fun c => punctuation_chars.contains c)).length

/-- Source: `text.count(' ')`. -/
def spaceCount (text : String) : ℕ :=
  (text.data.filter (fun c => c = ' ')).length

/-- Embedding of `TranscriptionService._has_adequate_punctuation`: texts shorter than 20
characters are never adequate; otherwise the punctuation density must reach
2% of the character count. -/
def _has_adequate_punctuation (text : String) : Bool :=
  if text.length = 0 ∨ text.length < 20 then false
  else decide ((2 / 100 : ℚ) ≤ (punctuationCount text : ℚ) / (text.length : ℚ))

/-- Embedding of `TranscriptionService._has_word_spacing`: texts shorter than 10
characters fail; zero spaces fail; under 30 characters any space suffices;
otherwise the space density must reach 5%. -/
def _has_word_spacing (text : String) : Bool :=
  if text.length = 0 ∨ text.length < 10 then false
  else
    let space_count := spaceCount text
    if space_count = 0 then false
    else if text.length < 30 then decide (0 < space_count)
    else decide ((5 / 100 : ℚ) ≤ (space_count : ℚ) / (text.length : ℚ))

/-- The "adequate" classification used by `transcribe_file`: the text is used
as-is (no secondary punctuation pass) iff `_has_adequate_punctuation` or
`_has_word_spacing` accepts it. -/
def adequateTranscript (text : String) : Bool :=
  _has_adequate_punctuation text || _has_word_spacing text

/-- The character set of `_ends_with_punctuation` (line 572). -/
def end_punctuation_chars : List Char := ['。', '，', '！', '？', '；', '：', '、']

/-- Embedding of `TranscriptionService._ends_with_punctuation`:
empty text fails, otherwise test the final character. -/
def _ends_with_punctuation (text : String) : Bool :=
  match text.data.getLast? with
  | none => false
  | some c => end_punctuation_chars.contains c

/-- Python `str.strip()`: drop leading and trailing whitespace.  (Stated on
the character list so that it evaluates inside the kernel.) -/
def pyStrip (s : String) : String :=
  ⟨((s.data.dropWhile Char.isWhitespace).reverse.dropWhile Char.isWhitespace).reverse⟩

/-- Python `str.endswith(suffix)`. -/
def pyEndsWith (s suffix : String) : Bool :=
  suffix.data.isSuffixOf s.data

/-- ASCII case folding.  Python's `str.lower()` folds the full Unicode
range (e.g. 'É'→'é', 'Ф'→'ф'), which `Char.toLower` does not; the merge
machinery below is therefore embedded parametrically in the case-folding
function `lower`, every theorem about it quantifies over `lower`, and this
ASCII fold is used only to instantiate witnesses at inputs where it agrees
with Python's fold (pure-ASCII words). -/
def pyLower (s : String) : String :=
  ⟨s.data.map Char.toLower⟩

/-- Python `str.split()` with no separator: split on whitespace runs,
dropping empty pieces. -/
def pySplit (s : String) : List String :=
  ((s.data.splitOnP Char.isWhitespace).map (fun cs => (⟨cs⟩ : String))).filter
    (fun w => decide (¬ w = ""))

/-- Embedding of `TranscriptionService._words_similar`, parametric in the
case-folding function `lower` (Python's `w1.lower() == w2.lower()`):
sequences of different length are dissimilar; otherwise at least 80% of
corresponding positions must agree after folding.  (The source divides by
`len(words1)`; every call site passes non-empty sequences.) -/
def wordsSimilarWith (lower : String → String) (words1 words2 : List String) : Bool :=
  if words1.length ≠ words2.length then false
  else
    let similar_count :=
      ((words1.zip words2).filter (fun p => lower p.1 = lower p.2)).length
    decide ((4 / 5 : ℚ) ≤ (similar_count : ℚ) / (words1.length : ℚ))

/-- Instance of `wordsSimilarWith` at the ASCII fold. -/
def _words_similar : List String → List String → Bool :=
  wordsSimilarWith pyLower

/-- The `for overlap_len in range(max_overlap, 0, -1)` scan of
`_merge_overlapping_text`: at counter `n` compare the last `n` words of
`prev_words` with the first `n` words of `current_words`; on the first
(largest) similar pair merge as `prev_words + current_words[n:]` joined by
single spaces, else continue downward. -/
def mergeScanWith (lower : String → String)
    (prev_words current_words : List String) : ℕ → Option String
  | 0 => none
  | n + 1 =>
    let prev_end := prev_words.drop (prev_words.length - (n + 1))
    let current_start := current_words.take (n + 1)
    if wordsSimilarWith lower prev_end current_start then
      some (String.intercalate " " (prev_words ++ current_words.drop (n + 1)))
    else
      mergeScanWith lower prev_words current_words n

/-- Embedding of `TranscriptionService._merge_overlapping_text`, parametric
in the case-folding function. -/
def mergeOverlappingTextWith (lower : String → String)
    (prev_text current_text : String) : Option String :=
  let prev_words := pySplit prev_text
  let current_words := pySplit current_text
  let max_overlap := min 10 (min prev_words.length current_words.length)
  mergeScanWith lower prev_words current_words max_overlap

/-- Instance of the overlap merge at the ASCII fold. -/
def _merge_overlapping_text : String → String → Option String :=
  mergeOverlappingTextWith pyLower

/-- The accumulation loop of `_combine_transcripts`, with the parts list kept
in reverse order: the first text is appended directly; each later text is
merged into the most recent part when `_merge_overlapping_text` finds an
overlap, and appended as a new part otherwise. -/
def combineLoopWith (lower : String → String) :
    List String → List String → List String
  | acc, [] => acc
  | [], text :: rest => combineLoopWith lower [text] rest
  | prev :: accTail, text :: rest =>
    match mergeOverlappingTextWith lower prev text with
    | some merged => combineLoopWith lower (merged :: accTail) rest
    | none => combineLoopWith lower (text :: prev :: accTail) rest

/-- Instance of the accumulation loop at the ASCII fold. -/
def combineLoop : List String → List String → List String :=
  combineLoopWith pyLower

/-- Stable ascending insertion by chunk index, modelling
`transcripts.sort(key=lambda x: x["index"])` (call sites carry pairwise
distinct indices, where every correct sort agrees). -/
def insertByIndex (x : ℕ × String) : List (ℕ × String) → List (ℕ × String)
  | [] => [x]
  | y :: ys => if x.1 < y.1 then x :: y :: ys else y :: insertByIndex x ys

/-- Sort of the transcript list by index. -/
def sortByIndex (ts : List (ℕ × String)) : List (ℕ × String) :=
  ts.foldr insertByIndex []

/-- Embedding of `TranscriptionService._combine_transcripts` over `(index, text)` pairs:
empty input gives `""`; a single transcript is returned untouched; otherwise
sort by index, run the merge loop, join the parts with single spaces and
strip the ends.  (The source's separate one-part case equals the join of a
singleton.) -/
def combineTranscriptsWith (lower : String → String)
    (transcripts : List (ℕ × String)) : String :=
  match transcripts with
  | [] => ""
  | [t] => t.2
  | _ =>
    pyStrip (String.intercalate " "
      ((combineLoopWith lower [] ((sortByIndex transcripts).map Prod.snd)).reverse))

/-- Instance of the combiner at the ASCII fold. -/
def _combine_transcripts : List (ℕ × String) → String :=
  combineTranscriptsWith pyLower

/-! ### Timestamped punctuation repair (`_process_timestamped_response`) -/

/-- One element of the response's `segments` array: `startT`/`endT` model the
optional `"start"`/`"end"` keys (`end` is reserved in Lean), read with
default `0` by the source. -/
structure Segment where
  text : String
  startT : Option ℚ
  endT : Option ℚ
deriving DecidableEq

/-- The relevant part of a timestamped API response:
`result.get("text", "")` and `result.get("segments", [])`. -/
structure TResponse where
  text : String
  segments : List Segment

/-- The `for i, segment in enumerate(segments)` loop of
`_process_timestamped_response`.  `isFirst` tracks `i == 0`; the lookahead
for the gap reads the next element of the remaining list.  Empty stripped
text is skipped; a separating space is added before any non-first
contribution when the accumulator is non-empty and does not already end in a
space.  Segment text already ending in punctuation is appended TWICE: once
by the `processed_text += text` inside the `if self._ends_with_punctuation`
branch (line 482) and once more by the loop-level `processed_text += text`
(line 502), which runs after both branches.  Otherwise a mark is chosen from
the gap to the next segment's start (the final segment gets a full stop) and
the amended text is appended once, by line 502. -/
def procLoop : Bool → String → List Segment → String
  | _, acc, [] => acc
  | isFirst, acc, seg :: rest =>
    let text := pyStrip seg.text
    if text = "" then procLoop false acc rest
    else
      let acc1 :=
        if ¬ isFirst = true ∧ ¬ acc = "" ∧ ¬ pyEndsWith acc " " = true then
          acc ++ " "
        else acc
      if _ends_with_punctuation text then
        procLoop false (acc1 ++ text ++ text) rest
      else
        let text1 :=
          match rest with
          | [] => text ++ "。"
          | next :: _ =>
            let gap := next.startT.getD 0 - seg.endT.getD 0
            if (3 / 2 : ℚ) < gap then text ++ "。"
            else if (4 / 5 : ℚ) < gap then text ++ "，"
            else if (3 / 10 : ℚ) < gap then text ++ "、"
            else text
        procLoop false (acc1 ++ text1) rest

/-- Embedding of `TranscriptionService._process_timestamped_response`: keep the plain text
when it is already adequately punctuated; fall back to it when there are no
segments or when processing yields an empty string; otherwise return the
processed segments. -/
def _process_timestamped_response (result : TResponse) : String :=
  if _has_adequate_punctuation result.text then result.text
  else
    match result.segments with
    | [] => result.text
    | segs =>
      let processed_text := procLoop true "" segs
      if processed_text = "" then result.text else processed_text

/-! ### Large-file aggregation (`transcribe_large_file`) -/

/-- Truthiness of one chunk's `transcribe_file` outcome inside the chunk
loop: `None` and the empty string are failures. -/
def isChunkSuccess : Option String → Bool
  | some t => decide (¬ t = "")
  | none => false

/-- The chunk loop of `transcribe_large_file` applied to the per-chunk
outcomes: successful chunks are recorded as
`{"index": i, "text": chunk_transcript.strip()}` in loop order. -/
def collectTranscripts (results : List (Option String)) : List (ℕ × String) :=
  results.enum.filterMap fun p =>
    match p.2 with
    | some t => if t = "" then none else some (p.1, pyStrip t)
    | none => none

/-- The aggregation tail of `transcribe_large_file` for a multi-chunk split:
combine the collected transcripts when any chunk succeeded, otherwise report
no transcript. -/
def transcribe_large_file_core (results : List (Option String)) : Option String :=
  let transcripts := collectTranscripts results
  if transcripts = [] then none else some (_combine_transcripts transcripts)

/-! ### Claim-facing auxiliary definitions -/

/-- The punctuation mark the repair step appends for a given pause `gap`
(seconds) before the next segment, as the claims describe: over 1.5 s a full
stop, over 0.8 s a comma, over 0.3 s a light pause mark, otherwise none. -/
def gapMark (gap : ℚ) : String :=
  if (3 / 2 : ℚ) < gap then "。"
  else if (4 / 5 : ℚ) < gap then "，"
  else if (3 / 10 : ℚ) < gap then "、"
  else ""

/-- The separating space the repair loop inserts before a non-first
contribution when the accumulated text is non-empty and lacks a trailing
space. -/
def joinSpace (isFirst : Bool) (acc : String) : String :=
  if ¬ isFirst = true ∧ ¬ acc = "" ∧ ¬ pyEndsWith acc " " = true then acc ++ " " else acc

/-- The adequacy classification exactly as claim C4 words it: punctuation
density ≥ 2% over texts of at least 20 characters, or space density ≥ 5%
over texts of at least 30 characters, or any nonzero spacing for texts
shorter than 30 characters. -/
def AdequateClaimC4 (text : String) : Prop :=
  (20 ≤ text.length ∧ (2 / 100 : ℚ) ≤ (punctuationCount text : ℚ) / (text.length : ℚ)) ∨
  (30 ≤ text.length ∧ (5 / 100 : ℚ) ≤ (spaceCount text : ℚ) / (text.length : ℚ)) ∨
  (text.length < 30 ∧ 0 < spaceCount text)

instance : DecidablePred AdequateClaimC4 := fun t => by
  unfold AdequateClaimC4; infer_instance

/-- The segment list of claim C2:
`[{text:"hello", end:1.0}, {text:"world", start:3.0}]`. -/
def c2Segments : List Segment :=
  [⟨"hello", none, some 1⟩, ⟨"world", some 3, none⟩]

/-- The splitter guarantees claimed in C1 for a produced chunk list `L` over
total sample count `S` and overlap `O`: contiguous 0-based indices, first
chunk starting at sample 0, gap-free coverage of `[0, S)`, each next chunk
starting exactly `O` samples before the previous chunk's end, and the final
chunk ending at `S`. -/
def ChunksSpec (S O : ℕ) (L : List Chunk) : Prop :=
  (∀ j (hj : j < L.length), (L.get ⟨j, hj⟩).index = j) ∧
  (∃ c cs, L = c :: cs ∧ c.start_sample = 0) ∧
  (∀ t, t < S → ∃ j, ∃ hj : j < L.length,
      (L.get ⟨j, hj⟩).start_sample ≤ t ∧ t < (L.get ⟨j, hj⟩).end_sample) ∧
  (∀ j (hj : j + 1 < L.length),
      (L.get ⟨j + 1, hj⟩).start_sample = (L.get ⟨j, Nat.lt_of_succ_lt hj⟩).end_sample - O) ∧
  (L.getLast?).map Chunk.end_sample = some S

/-- The per-chunk outcomes that count as successes in claim C9, with their
chunk indices and stripped texts, in loop order: exactly the chunks whose
transcription produced a non-empty text. -/
def successEntries (results : List (Option String)) : List (ℕ × String) :=
  (results.enum.filter (fun p => isChunkSuccess p.2)).map
    (fun p => (p.1, pyStrip (p.2.getD "")))

/-! ## Theorems -/

/-- The chunk duration is always clamped into the window `[60, 300]`,
whatever the metadata (shared helper for the duration and termination
claims). -/
lemma chunk_duration_bounds (meta : Option (ℚ × ℚ)) :
    60 ≤ calculate_chunk_duration meta ∧ calculate_chunk_duration meta ≤ 300 := by
  rcases meta with _ | ⟨size, dur⟩
  · norm_num [calculate_chunk_duration]
  · simp only [calculate_chunk_duration]
    split
    · exact ⟨le_max_left _ _, max_le (by norm_num) (min_le_left _ _)⟩
    · norm_num

/-- C6: `calculate_chunk_duration` returns
`(max_size_bytes × 0.9) / bytes_per_second` with
`bytes_per_second = file_size / total_duration`, clamped to `[60, 300]`
seconds; unreadable metadata yields the fixed fallback `240`; and the result
always lies in `[60, 300]`. -/
theorem calculate_chunk_duration_spec (meta : Option (ℚ × ℚ)) :
    calculate_chunk_duration none = 240 ∧
    (∀ file_size total_duration : ℚ, 0 < file_size → 0 < total_duration →
      calculate_chunk_duration (some (file_size, total_duration)) =
        max 60 (min 300
          (((max_size_bytes : ℚ) * (9 / 10)) / (file_size / total_duration)))) ∧
    60 ≤ calculate_chunk_duration meta ∧ calculate_chunk_duration meta ≤ 300 := by
  refine ⟨rfl, ?_, chunk_duration_bounds meta⟩
  intro s d hs hd
  simp [calculate_chunk_duration, hs, hd]

/-- Witness for C6 at concrete metadata. -/
theorem calculate_chunk_duration_spec_witness :
    (0 : ℚ) < 1 ∧ (0 : ℚ) < 2 ∧
    calculate_chunk_duration (some (1, 2)) =
      max 60 (min 300 (((max_size_bytes : ℚ) * (9 / 10)) / ((1 : ℚ) / 2))) ∧
    60 ≤ calculate_chunk_duration (some (1, 2)) ∧
    calculate_chunk_duration (some (1, 2)) ≤ 300 := by
  obtain ⟨-, h2, h3⟩ := calculate_chunk_duration_spec (some (1, 2))
  exact ⟨by norm_num, by norm_num, h2 1 2 (by norm_num) (by norm_num), h3⟩

/-- C4 counterexample: `"ab cd"` (5 characters, one space, no punctuation)
is adequate by the claim's wording, but the code classifies it inadequate —
the spacing heuristic also demands at least 10 characters. -/
theorem adequate_claim_c4_cex :
    ¬ (adequateTranscript "ab cd" = true ↔ AdequateClaimC4 "ab cd") := by
  decide

/-- C4 amended: the code classifies a transcript adequate iff its
punctuation density is ≥ 2% over at least 20 characters, or its space
density is ≥ 5% over at least 30 characters, or its length is at least 10
and below 30 and it contains at least one space. -/
theorem adequateTranscript_iff (text : String) :
    adequateTranscript text = true ↔
      (20 ≤ text.length ∧
        (2 / 100 : ℚ) ≤ (punctuationCount text : ℚ) / (text.length : ℚ)) ∨
      (30 ≤ text.length ∧
        (5 / 100 : ℚ) ≤ (spaceCount text : ℚ) / (text.length : ℚ)) ∨
      (10 ≤ text.length ∧ text.length < 30 ∧ 0 < spaceCount text) := by
  have hsp0 : spaceCount text = 0 →
      ¬ ((5 / 100 : ℚ) ≤ (spaceCount text : ℚ) / (text.length : ℚ)) := by
    intro h
    rw [h]
    norm_num
  unfold adequateTranscript _has_adequate_punctuation _has_word_spacing
  rcases Nat.lt_or_ge text.length 10 with h10 | h10
  · have c1 : text.length = 0 ∨ text.length < 20 := by omega
    have c2 : text.length = 0 ∨ text.length < 10 := by omega
    simp only [if_pos c1, if_pos c2]
    constructor
    · intro h; simp at h
    · intro h; omega
  · rcases Nat.lt_or_ge text.length 20 with h20 | h20
    · have c1 : text.length = 0 ∨ text.length < 20 := by omega
      have c2 : ¬ (text.length = 0 ∨ text.length < 10) := by omega
      simp only [if_pos c1, if_neg c2, Bool.false_or]
      by_cases hsp : spaceCount text = 0
      · simp only [if_pos hsp]
        constructor
        · intro h; simp at h
        · intro h
          rcases h with ⟨h, _⟩ | ⟨h, _⟩ | ⟨_, _, h⟩ <;> omega
      · have h30 : text.length < 30 := by omega
        simp only [if_neg hsp, if_pos h30, decide_eq_true_eq]
        constructor
        · intro h; right; right; exact ⟨h10, h30, h⟩
        · intro h
          rcases h with ⟨h, _⟩ | ⟨h, _⟩ | ⟨_, _, h⟩ <;> omega
    · have c1 : ¬ (text.length = 0 ∨ text.length < 20) := by omega
      have c2 : ¬ (text.length = 0 ∨ text.length < 10) := by omega
      simp only [if_neg c1, if_neg c2, Bool.or_eq_true, decide_eq_true_eq]
      rcases Nat.lt_or_ge text.length 30 with h30 | h30
      · by_cases hsp : spaceCount text = 0
        · simp only [if_pos hsp]
          constructor
          · intro h
            rcases h with h | h
            · left; exact ⟨h20, h⟩
            · simp at h
          · intro h
            rcases h with ⟨_, h⟩ | ⟨h, _⟩ | ⟨_, _, h⟩
            · left; exact h
            · omega
            · omega
        · simp only [if_neg hsp, if_pos h30, decide_eq_true_eq]
          constructor
          · intro h
            rcases h with h | h
            · left; exact ⟨h20, h⟩
            · right; right; exact ⟨by omega, h30, h⟩
          · intro h
            rcases h with ⟨_, h⟩ | ⟨h, _⟩ | ⟨_, _, h⟩
            · left; exact h
            · omega
            · right; omega
      · by_cases hsp : spaceCount text = 0
        · simp only [if_pos hsp]
          constructor
          · intro h
            rcases h with h | h
            · left; exact ⟨h20, h⟩
            · simp at h
          · intro h
            rcases h with ⟨_, h⟩ | ⟨_, h⟩ | ⟨_, h, _⟩
            · left; exact h
            · exact absurd h (hsp0 hsp)
            · omega
        · have c3 : ¬ text.length < 30 := by omega
          simp only [if_neg hsp, if_neg c3, decide_eq_true_eq]
          constructor
          · intro h
            rcases h with h | h
            · left; exact ⟨h20, h⟩
            · right; left; exact ⟨h30, h⟩
          · intro h
            rcases h with ⟨_, h⟩ | ⟨_, h⟩ | ⟨_, h, _⟩
            · left; exact h
            · right; exact h
            · omega

/-- One unfolded iteration of the repair loop for a non-final segment whose
stripped text is non-empty and does not already end in punctuation: the
contribution is the stripped text followed by the mark selected from the gap
to the next segment's start. -/
lemma procLoop_cons_step (isFirst : Bool) (acc : String) (seg next : Segment)
    (rest : List Segment) (htext : pyStrip seg.text ≠ "")
    (hpunct : _ends_with_punctuation (pyStrip seg.text) = false) :
    procLoop isFirst acc (seg :: next :: rest) =
      procLoop false
        (joinSpace isFirst acc ++
          (pyStrip seg.text ++ gapMark (next.startT.getD 0 - seg.endT.getD 0)))
        (next :: rest) := by
  conv_lhs => rw [procLoop]
  simp only [if_neg htext, hpunct, Bool.false_eq_true, if_false, joinSpace, gapMark]
  congr 1
  split_ifs <;> simp

/-- The repair loop always advances past a non-final segment to the tail
with some accumulator (whatever branch the current segment takes). -/
lemma procLoop_cons_cons (isFirst : Bool) (acc : String) (seg next : Segment)
    (tail : List Segment) :
    ∃ acc1, procLoop isFirst acc (seg :: next :: tail) = procLoop false acc1 (next :: tail) := by
  by_cases h1 : pyStrip seg.text = ""
  · refine ⟨acc, ?_⟩
    conv_lhs => rw [procLoop]
    simp only [if_pos h1]
  · by_cases h2 : _ends_with_punctuation (pyStrip seg.text) = true
    · exact ⟨_, by (conv_lhs => rw [procLoop]); rw [if_neg h1, if_pos h2]⟩
    · exact ⟨_, by (conv_lhs => rw [procLoop]); rw [if_neg h1, if_neg h2]⟩

/-- Shared computation for claim C2: with any inadequately punctuated plain
text, the claimed segments produce `"hello。 world。"`. -/
lemma process_c2_value (orig : String)
    (h : _has_adequate_punctuation orig = false) :
    _process_timestamped_response ⟨orig, c2Segments⟩ = "hello。 world。" := by
  have h1 := procLoop_cons_step true "" ⟨"hello", none, some 1⟩ ⟨"world", some 3, none⟩ []
    (by decide) (by decide)
  have h2 : gapMark ((some (3 : ℚ)).getD 0 - (some (1 : ℚ)).getD 0) = "。" := by
    norm_num [gapMark]
  rw [h2] at h1
  have h3 : joinSpace true "" ++
      ((pyStrip "hello") ++ "。") = "hello。" := by decide
  rw [h3] at h1
  have h4 : procLoop false "hello。" [⟨"world", some 3, none⟩] = "hello。 world。" := by
    decide
  rw [h4] at h1
  simp only [_process_timestamped_response, h, Bool.false_eq_true, if_false, c2Segments]
  rw [h1]
  rw [if_neg (by decide : ¬ ("hello。 world。" : String) = "")]

/-- C2 counterexample: with inadequate plain text and the claimed segments
(gap 2.0 s), the repair step inserts a separating space between the two
contributions, so the result is not `"hello。world。"`. -/
theorem process_timestamped_c2_cex :
    _has_adequate_punctuation "" = false ∧
    _process_timestamped_response ⟨"", c2Segments⟩ ≠ "hello。world。" := by
  refine ⟨by decide, ?_⟩
  rw [process_c2_value "" (by decide)]
  decide

/-- C2 amended: for any plain text lacking adequate punctuation, the claimed
segments yield `"hello。 world。"` — full stop on the first segment (gap 2.0 s
exceeds 1.5 s), a separating space, and a full stop on the final segment. -/
theorem process_timestamped_c2 (orig : String)
    (h : _has_adequate_punctuation orig = false) :
    _process_timestamped_response ⟨orig, c2Segments⟩ = "hello。 world。" :=
  process_c2_value orig h

/-- Witness for the amended C2 at the empty plain text. -/
theorem process_timestamped_c2_witness :
    _has_adequate_punctuation "" = false ∧
    _process_timestamped_response ⟨"", c2Segments⟩ = "hello。 world。" :=
  ⟨by decide, process_timestamped_c2 "" (by decide)⟩

/-- C7: a response with no segments falls back to the original plain text;
and every non-final segment whose stripped text is non-empty and not already
punctuation-terminated contributes its text followed by the gap-selected
mark (`gapMark`: full stop over 1.5 s, comma over 0.8 s, light pause mark
over 0.3 s, nothing otherwise), after the separating space `joinSpace`. -/
theorem process_timestamped_gap_rules :
    (∀ orig : String, _process_timestamped_response ⟨orig, []⟩ = orig) ∧
    (∀ (isFirst : Bool) (acc : String) (seg next : Segment) (rest : List Segment),
      pyStrip seg.text ≠ "" →
      _ends_with_punctuation (pyStrip seg.text) = false →
      procLoop isFirst acc (seg :: next :: rest) =
        procLoop false
          (joinSpace isFirst acc ++
            (pyStrip seg.text ++ gapMark (next.startT.getD 0 - seg.endT.getD 0)))
          (next :: rest)) := by
  refine ⟨?_, procLoop_cons_step⟩
  intro orig
  unfold _process_timestamped_response
  split_ifs <;> rfl

/-- Witness for C7 at a concrete two-segment list with gap 2.0 s. -/
theorem process_timestamped_gap_rules_witness :
    pyStrip "ha" ≠ "" ∧ _ends_with_punctuation (pyStrip "ha") = false ∧
    procLoop true "" [⟨"ha", none, some 0⟩, ⟨"x", some 2, none⟩] =
      procLoop false
        (joinSpace true "" ++
          (pyStrip "ha" ++ gapMark ((some (2 : ℚ)).getD 0 - (some (0 : ℚ)).getD 0)))
        [⟨"x", some 2, none⟩] :=
  ⟨by decide, by decide,
    process_timestamped_gap_rules.2 true "" ⟨"ha", none, some 0⟩ ⟨"x", some 2, none⟩ []
      (by decide) (by decide)⟩

/-- What the repair loop appends after the last processed segment: the
stripped text of the final segment appended twice when it already ends in
punctuation (source lines 482 and 502), and otherwise closed with a full
stop. -/
lemma procLoop_last (segs : List Segment) :
    ∀ (isFirst : Bool) (acc : String) (lastSeg : Segment),
      segs.getLast? = some lastSeg → pyStrip lastSeg.text ≠ "" →
      ∃ p : String, procLoop isFirst acc segs =
        p ++ (if _ends_with_punctuation (pyStrip lastSeg.text) then
                pyStrip lastSeg.text ++ pyStrip lastSeg.text
              else pyStrip lastSeg.text ++ "。") := by
  induction segs with
  | nil => intro _ _ _ h; simp at h
  | cons seg rest ih =>
    intro isFirst acc lastSeg hlast htext
    cases rest with
    | nil =>
      have hseg : seg = lastSeg := by simpa using hlast
      subst hseg
      simp only [procLoop, if_neg htext]
      refine ⟨if ¬ isFirst = true ∧ ¬ acc = "" ∧ ¬ pyEndsWith acc " " = true then
        acc ++ " " else acc, ?_⟩
      split_ifs <;> simp [String.append_assoc]
    | cons seg2 rest2 =>
      obtain ⟨acc1, hstep⟩ := procLoop_cons_cons isFirst acc seg seg2 rest2
      rw [hstep]
      rw [List.getLast?_cons_cons] at hlast
      exact ih false acc1 lastSeg hlast htext

/-- C8 amended: when the final segment's stripped text is non-empty, its
contribution ends with a full stop if the text does not already end in a
recognized punctuation mark; when it does, the text is appended twice
(source lines 482 and 502), so the output ends with that mark rather than
necessarily with a full stop. -/
theorem procLoop_final_full_stop (segs : List Segment) (lastSeg : Segment)
    (hlast : segs.getLast? = some lastSeg) (htext : pyStrip lastSeg.text ≠ "") :
    (_ends_with_punctuation (pyStrip lastSeg.text) = false →
      ∃ p : String, procLoop true "" segs = p ++ (pyStrip lastSeg.text ++ "。")) ∧
    (_ends_with_punctuation (pyStrip lastSeg.text) = true →
      ∃ p : String, procLoop true "" segs =
        p ++ (pyStrip lastSeg.text ++ pyStrip lastSeg.text)) := by
  obtain ⟨p, hp⟩ := procLoop_last segs true "" lastSeg hlast htext
  constructor
  · intro hpunct
    rw [hpunct] at hp
    simp only [Bool.false_eq_true, if_false] at hp
    exact ⟨p, hp⟩
  · intro hpunct
    rw [hpunct] at hp
    simp only [if_true] at hp
    exact ⟨p, hp⟩

/-- C8 counterexample: a single segment whose text already ends in a comma
is appended twice (lines 482 and 502), yielding `"hi，hi，"` — the final
contribution does not end in a full stop. -/
theorem procLoop_final_full_stop_cex :
    procLoop true "" [⟨"hi，", none, none⟩] = "hi，hi，" ∧
    ("hi，hi，" : String).data.getLast? ≠ some '。' := by
  decide

/-- Witness for the amended C8 at a one-segment list. -/
theorem procLoop_final_full_stop_witness :
    [(⟨"hi", none, none⟩ : Segment)].getLast? = some ⟨"hi", none, none⟩ ∧
    pyStrip "hi" ≠ "" ∧
    (_ends_with_punctuation (pyStrip (⟨"hi", none, none⟩ : Segment).text) = false →
      ∃ p : String, procLoop true "" [⟨"hi", none, none⟩] =
        p ++ (pyStrip (⟨"hi", none, none⟩ : Segment).text ++ "。")) :=
  ⟨by decide, by decide,
    (procLoop_final_full_stop [⟨"hi", none, none⟩] ⟨"hi", none, none⟩
      (by decide) (by decide)).1⟩

/-- Evaluation helper: `wordsSimilarWith` accepts two equal-length
sequences whose agreement count under the fold reaches 80%.  (Rational
comparisons do not reduce in the kernel, so concrete instances are fed
through here.) -/
lemma words_similar_true_eval (lower : String → String) (ws1 ws2 : List String) (c n : ℕ)
    (hc : ((ws1.zip ws2).filter (fun p => lower p.1 = lower p.2)).length = c)
    (hl1 : ws1.length = n) (hl2 : ws2.length = n)
    (h : (4 / 5 : ℚ) ≤ (c : ℚ) / (n : ℚ)) :
    wordsSimilarWith lower ws1 ws2 = true := by
  unfold wordsSimilarWith
  rw [if_neg (by simp [hl1, hl2])]
  rw [hc, hl1]
  exact decide_eq_true h

/-- Evaluation helper: `wordsSimilarWith` rejects sequences whose agreement
ratio stays below 80%. -/
lemma words_similar_false_eval (lower : String → String) (ws1 ws2 : List String) (c n : ℕ)
    (hc : ((ws1.zip ws2).filter (fun p => lower p.1 = lower p.2)).length = c)
    (hl1 : ws1.length = n) (hl2 : ws2.length = n)
    (h : (c : ℚ) / (n : ℚ) < (4 / 5 : ℚ)) :
    wordsSimilarWith lower ws1 ws2 = false := by
  unfold wordsSimilarWith
  rw [if_neg (by simp [hl1, hl2])]
  rw [hc, hl1]
  exact decide_eq_false (not_le.mpr h)

/-- The downward scan returns `none` when no overlap length up to the
current counter is similar. -/
lemma mergeScan_none (lower : String → String) (pw cw : List String) :
    ∀ j, (∀ n, 1 ≤ n → n ≤ j →
        wordsSimilarWith lower (pw.drop (pw.length - n)) (cw.take n) = false) →
      mergeScanWith lower pw cw j = none := by
  intro j
  induction j with
  | zero => intro _; rfl
  | succ j ih =>
    intro h
    simp only [mergeScanWith, h (j + 1) (by omega) (le_refl _), Bool.false_eq_true,
      if_false]
    exact ih (fun n h1 h2 => h n h1 (by omega))

/-- The downward scan stops at the largest similar overlap length: if `n` is
similar and every length above `n` (up to the counter) is not, the scan
merges at `n`. -/
lemma mergeScan_hit (lower : String → String) (pw cw : List String) (n : ℕ) (hn1 : 1 ≤ n)
    (hq : wordsSimilarWith lower (pw.drop (pw.length - n)) (cw.take n) = true) :
    ∀ j, n ≤ j →
      (∀ m, m ≤ j → n < m →
        wordsSimilarWith lower (pw.drop (pw.length - m)) (cw.take m) = false) →
      mergeScanWith lower pw cw j =
        some (String.intercalate " " (pw ++ cw.drop n)) := by
  intro j
  induction j with
  | zero => intro h _; omega
  | succ j ih =>
    intro hnj h
    by_cases hcase : n = j + 1
    · subst hcase
      simp only [mergeScanWith, hq, if_true]
    · have hfalse := h (j + 1) (le_refl _) (by omega)
      simp only [mergeScanWith, hfalse, Bool.false_eq_true, if_false]
      exact ih (by omega) (fun m hm1 hm2 => h m (by omega) hm2)

/-- C5: for every case-folding function `lower` — in particular Python's
full-Unicode `str.lower`, which the embedding keeps as a parameter — and
every pair of texts: with `k = min(10, len prev_words, len curr_words)`, the
merge fires at the largest overlap length `n ≤ k` whose word windows agree
in ≥80% of positions after folding, producing `prev_words ++ curr_words[n:]`
joined by single spaces; when no length in `[1, k]` qualifies, the merge
returns `none` and the combiner appends the current text as a new
independent entry. -/
theorem merge_overlapping_text_spec (lower : String → String)
    (prev_text current_text : String) :
    (∀ n, 1 ≤ n →
      n ≤ min 10 (min (pySplit prev_text).length (pySplit current_text).length) →
      wordsSimilarWith lower
        ((pySplit prev_text).drop ((pySplit prev_text).length - n))
        ((pySplit current_text).take n) = true →
      (∀ m, m ≤ min 10 (min (pySplit prev_text).length (pySplit current_text).length) →
        n < m →
        wordsSimilarWith lower
          ((pySplit prev_text).drop ((pySplit prev_text).length - m))
          ((pySplit current_text).take m) = false) →
      mergeOverlappingTextWith lower prev_text current_text =
        some (String.intercalate " "
          (pySplit prev_text ++ (pySplit current_text).drop n))) ∧
    ((∀ n, 1 ≤ n →
      n ≤ min 10 (min (pySplit prev_text).length (pySplit current_text).length) →
      wordsSimilarWith lower
        ((pySplit prev_text).drop ((pySplit prev_text).length - n))
        ((pySplit current_text).take n) = false) →
      mergeOverlappingTextWith lower prev_text current_text = none) ∧
    (∀ (accTail rest : List String),
      mergeOverlappingTextWith lower prev_text current_text = none →
      combineLoopWith lower (prev_text :: accTail) (current_text :: rest) =
        combineLoopWith lower (current_text :: prev_text :: accTail) rest) := by
  refine ⟨?_, ?_, ?_⟩
  · intro n hn1 hnk hq hmax
    unfold mergeOverlappingTextWith
    exact mergeScan_hit lower _ _ n hn1 hq _ hnk hmax
  · intro h
    unfold mergeOverlappingTextWith
    exact mergeScan_none lower _ _ _ h
  · intro accTail rest h
    rw [combineLoopWith, h]

/-- Witness for C5 at the ASCII fold (where `pyLower` agrees with Python's
`str.lower`): `"x a b"` and `"a b y"` merge at overlap length 2 (`["a","b"]`
vs `["a","b"]`, similarity 1.0), while length 3 fails (similarity 0). -/
theorem merge_overlapping_text_spec_witness :
    _merge_overlapping_text "x a b" "a b y" =
      some (String.intercalate " " (pySplit "x a b" ++ (pySplit "a b y").drop 2)) := by
  show mergeOverlappingTextWith pyLower "x a b" "a b y" = _
  refine (merge_overlapping_text_spec pyLower "x a b" "a b y").1 2
    (by decide) (by decide) ?_ ?_
  · have e1 : (pySplit "x a b").drop ((pySplit "x a b").length - 2) = ["a", "b"] := by decide
    have e2 : (pySplit "a b y").take 2 = ["a", "b"] := by decide
    rw [e1, e2]
    exact words_similar_true_eval pyLower _ _ 2 2 (by decide) (by decide) (by decide)
      (by norm_num)
  · intro m hm1 hm2
    rw [show min 10 (min (pySplit "x a b").length (pySplit "a b y").length) = 3 from
      by decide] at hm1
    have hm3 : m = 3 := by omega
    subst hm3
    have e1 : (pySplit "x a b").drop ((pySplit "x a b").length - 3) = ["x", "a", "b"] := by
      decide
    have e2 : (pySplit "a b y").take 3 = ["a", "b", "y"] := by decide
    rw [e1, e2]
    exact words_similar_false_eval pyLower _ _ 0 3 (by decide) (by decide) (by decide)
      (by norm_num)

/-- Inserting below a strictly smaller head keeps the list unchanged apart
from the new head. -/
lemma insertByIndex_cons_of_lt (x y : ℕ × String) (t : List (ℕ × String))
    (h : x.1 < y.1) : insertByIndex x (y :: t) = x :: y :: t := by
  simp [insertByIndex, h]

/-- Sorting a list whose indices strictly increase leaves it unchanged. -/
lemma sortByIndex_of_pairwise (ts : List (ℕ × String))
    (h : ts.Pairwise (fun a b => a.1 < b.1)) : sortByIndex ts = ts := by
  induction ts with
  | nil => rfl
  | cons a l ih =>
    rw [List.pairwise_cons] at h
    obtain ⟨ha, hl⟩ := h
    show insertByIndex a (sortByIndex l) = a :: l
    rw [ih hl]
    cases l with
    | nil => rfl
    | cons b t => exact insertByIndex_cons_of_lt a b t (ha b (by simp))

/-- The indices attached by `enum` strictly increase. -/
lemma enum_pairwise_fst {α : Type} (l : List α) :
    l.enum.Pairwise (fun a b => a.1 < b.1) := by
  have h := List.pairwise_lt_range l.length
  rw [← List.enum_map_fst] at h
  exact List.pairwise_map.mp h

/-- When no adjacent pair merges (under the given fold), the accumulation
loop just reverses the texts onto the accumulator. -/
lemma combineLoop_no_merge (lower : String → String) :
    ∀ (texts : List String) (prev : String) (accTail : List String),
      List.Chain' (fun a b => mergeOverlappingTextWith lower a b = none) (prev :: texts) →
      combineLoopWith lower (prev :: accTail) texts =
        texts.reverse ++ (prev :: accTail) := by
  intro texts
  induction texts with
  | nil => intro prev accTail _; rfl
  | cons t rest ih =>
    intro prev accTail h
    rw [List.chain'_cons] at h
    obtain ⟨h1, h2⟩ := h
    rw [combineLoopWith, h1, ih t (prev :: accTail) h2]
    simp

/-- Unfolding: the combiner on at least two entries takes the sort-and-merge
branch. -/
lemma combine_transcripts_cons_cons (lower : String → String) (a b : ℕ × String)
    (l : List (ℕ × String)) :
    combineTranscriptsWith lower (a :: b :: l) =
      pyStrip (String.intercalate " "
        ((combineLoopWith lower [] ((sortByIndex (a :: b :: l)).map Prod.snd)).reverse)) :=
  rfl

/-- C3 amended: for every case-folding function (in particular Python's
`str.lower`, kept as a parameter of the embedding), when no overlap merge
fires between any adjacent pair, the combiner joins the entries with single
spaces and strips only the outer whitespace, preserving every text (and its
internal spacing) verbatim.  When a merge does fire, the merged pair is
re-tokenized (split on whitespace and re-joined with single spaces),
collapsing internal whitespace runs — see the counterexample. -/
theorem combine_transcripts_preserves_texts (lower : String → String)
    (texts : List String) (h2 : 2 ≤ texts.length)
    (hm : List.Chain' (fun a b => mergeOverlappingTextWith lower a b = none) texts) :
    combineTranscriptsWith lower texts.enum = pyStrip (String.intercalate " " texts) := by
  obtain ⟨t0, rest, rfl⟩ : ∃ t0 rest, texts = t0 :: rest := by
    cases texts with
    | nil => simp at h2
    | cons a l => exact ⟨a, l, rfl⟩
  obtain ⟨t1, rest2, rfl⟩ : ∃ t1 rest2, rest = t1 :: rest2 := by
    cases rest with
    | nil => simp at h2
    | cons a l => exact ⟨a, l, rfl⟩
  have henum : (t0 :: t1 :: rest2).enum = (0, t0) :: (1, t1) :: List.enumFrom 2 rest2 := rfl
  have hsort : sortByIndex ((t0 :: t1 :: rest2).enum) = (t0 :: t1 :: rest2).enum :=
    sortByIndex_of_pairwise _ (enum_pairwise_fst _)
  have hsnd : ((t0 :: t1 :: rest2).enum).map Prod.snd = t0 :: t1 :: rest2 :=
    List.enum_map_snd _
  rw [henum] at hsort hsnd
  rw [henum, combine_transcripts_cons_cons, hsort, hsnd, combineLoopWith,
    combineLoop_no_merge lower (t1 :: rest2) t0 [] hm]
  simp

/-- Shared computation: `"a  b"` and `"b c"` merge at overlap length 1 under
the ASCII fold (the compared words are identical, so any fold agrees). -/
lemma merge_a_b_value : mergeOverlappingTextWith pyLower "a  b" "b c" = some "a b c" := by
  have h : mergeOverlappingTextWith pyLower "a  b" "b c" =
      some (String.intercalate " " (pySplit "a  b" ++ (pySplit "b c").drop 1)) := by
    unfold mergeOverlappingTextWith
    refine mergeScan_hit pyLower _ _ 1 (by decide) ?_ _ (by decide) ?_
    · rw [show (pySplit "a  b").drop ((pySplit "a  b").length - 1) = ["b"] from by decide,
        show (pySplit "b c").take 1 = ["b"] from by decide]
      exact words_similar_true_eval pyLower _ _ 1 1 (by decide) (by decide) (by decide)
        (by norm_num)
    · intro m hm1 hm2
      rw [show min 10 (min (pySplit "a  b").length (pySplit "b c").length) = 2 from
        by decide] at hm1
      have hmeq : m = 2 := by omega
      subst hmeq
      rw [show (pySplit "a  b").drop ((pySplit "a  b").length - 2) = ["a", "b"] from by decide,
        show (pySplit "b c").take 2 = ["b", "c"] from by decide]
      exact words_similar_false_eval pyLower _ _ 0 2 (by decide) (by decide) (by decide)
        (by norm_num)
  rw [h]
  decide

/-- C3 counterexample: `"a  b"` (internal double space) followed by `"b c"`
triggers a merge (the overlapping word `"b"` is identical, so the program's
fold agrees with the ASCII one here), and the merged output `"a b c"` has
collapsed the double space — it differs from joining the two entries with a
single space and stripping the ends (`"a  b b c"`). -/
theorem combine_transcripts_retokenize_cex :
    _combine_transcripts [(0, "a  b"), (1, "b c")] = "a b c" ∧
    _combine_transcripts [(0, "a  b"), (1, "b c")] ≠
      pyStrip (String.intercalate " " ["a  b", "b c"]) := by
  have h1 : _combine_transcripts [(0, "a  b"), (1, "b c")] = "a b c" := by
    show combineTranscriptsWith pyLower [(0, "a  b"), (1, "b c")] = "a b c"
    rw [combine_transcripts_cons_cons,
      show (sortByIndex [(0, "a  b"), (1, "b c")]).map Prod.snd = ["a  b", "b c"] from
        by decide,
      combineLoopWith, combineLoopWith, merge_a_b_value]
    decide
  exact ⟨h1, by rw [h1]; decide⟩

/-- Witness for the amended C3 at the ASCII fold and two non-merging
texts. -/
theorem combine_transcripts_preserves_texts_witness :
    2 ≤ (["aa", "bb"] : List String).length ∧
    List.Chain' (fun a b => mergeOverlappingTextWith pyLower a b = none) ["aa", "bb"] ∧
    combineTranscriptsWith pyLower (["aa", "bb"] : List String).enum =
      pyStrip (String.intercalate " " ["aa", "bb"]) := by
  have hnone : mergeOverlappingTextWith pyLower "aa" "bb" = none := by
    unfold mergeOverlappingTextWith
    refine mergeScan_none pyLower _ _ _ ?_
    intro n h1 h2
    rw [show min 10 (min (pySplit "aa").length (pySplit "bb").length) = 1 from
      by decide] at h2
    have hneq : n = 1 := by omega
    subst hneq
    rw [show (pySplit "aa").drop ((pySplit "aa").length - 1) = ["aa"] from by decide,
      show (pySplit "bb").take 1 = ["bb"] from by decide]
    exact words_similar_false_eval pyLower _ _ 0 1 (by decide) (by decide) (by decide)
      (by norm_num)
  have hchain : List.Chain' (fun a b => mergeOverlappingTextWith pyLower a b = none)
      ["aa", "bb"] := by
    rw [List.chain'_cons]
    exact ⟨hnone, List.chain'_singleton _⟩
  exact ⟨by decide, hchain,
    combine_transcripts_preserves_texts pyLower _ (by decide) hchain⟩

/-- Full invariant of the splitting loop, by induction on the fuel: starting
at sample `s < S` with index `i` and fuel at least `S - s`, the produced
list starts at `s` with index `i`, carries consecutive indices, covers
`[s, S)`, steps each next chunk back by exactly the overlap, and ends at
`S`. -/
lemma splitLoop_invariant (S C O : ℕ) (hO : O < C) :
    ∀ f s i, s < S → S - s ≤ f →
      (∃ c cs, splitLoop S C O f s i = c :: cs ∧ c.start_sample = s) ∧
      (∀ j (hj : j < (splitLoop S C O f s i).length),
        ((splitLoop S C O f s i).get ⟨j, hj⟩).index = i + j) ∧
      (∀ t, s ≤ t → t < S → ∃ j, ∃ hj : j < (splitLoop S C O f s i).length,
        ((splitLoop S C O f s i).get ⟨j, hj⟩).start_sample ≤ t ∧
        t < ((splitLoop S C O f s i).get ⟨j, hj⟩).end_sample) ∧
      (∀ j (hj : j + 1 < (splitLoop S C O f s i).length),
        ((splitLoop S C O f s i).get ⟨j + 1, hj⟩).start_sample =
          ((splitLoop S C O f s i).get ⟨j, Nat.lt_of_succ_lt hj⟩).end_sample - O) ∧
      ((splitLoop S C O f s i).getLast?).map Chunk.end_sample = some S := by
  intro f
  induction f with
  | zero => intro s i hs hf; omega
  | succ f ih =>
    intro s i hs hf
    by_cases hend : S ≤ min (s + C) S
    · have hL : splitLoop S C O (f + 1) s i = [⟨i, s, min (s + C) S⟩] := by
        rw [splitLoop, if_pos hs, if_pos hend]
      have hminS : min (s + C) S = S := by omega
      rw [hL]
      refine ⟨⟨_, [], rfl, rfl⟩, ?_, ?_, ?_, ?_⟩
      · intro j hj
        have hj0 : j = 0 := by simpa using hj
        subst hj0
        simp
      · intro t hst htS
        refine ⟨0, by simp, by simpa using hst, by simpa [hminS] using htS⟩
      · intro j hj
        simp at hj
      · simp [hminS]
    · have hsC : s + C < S := by omega
      have hmin : min (s + C) S = s + C := by omega
      have hL : splitLoop S C O (f + 1) s i =
          ⟨i, s, min (s + C) S⟩ :: splitLoop S C O f (min (s + C) S - O) (i + 1) := by
        rw [splitLoop, if_pos hs, if_neg hend]
      have hs'S : min (s + C) S - O < S := by omega
      have hf' : S - (min (s + C) S - O) ≤ f := by omega
      obtain ⟨⟨c', cs', hL', hc'start⟩, hidx, hcov, hadj, hlast⟩ :=
        ih (min (s + C) S - O) (i + 1) hs'S hf'
      rw [hL]
      refine ⟨⟨_, _, rfl, rfl⟩, ?_, ?_, ?_, ?_⟩
      · intro j hj
        cases j with
        | zero => simp
        | succ j =>
          have hj' : j < (splitLoop S C O f (min (s + C) S - O) (i + 1)).length := by
            simpa using hj
          have h0 : ((⟨i, s, min (s + C) S⟩ : Chunk) ::
              splitLoop S C O f (min (s + C) S - O) (i + 1)).get ⟨j + 1, hj⟩ =
              (splitLoop S C O f (min (s + C) S - O) (i + 1)).get ⟨j, hj'⟩ := rfl
          rw [h0, hidx j hj']
          omega
      · intro t hst htS
        by_cases htc : t < min (s + C) S
        · exact ⟨0, by simp, by simpa using hst, by simpa using htc⟩
        · have hts : min (s + C) S - O ≤ t := by omega
          obtain ⟨j, hj, hj1, hj2⟩ := hcov t hts htS
          refine ⟨j + 1, by simpa using Nat.succ_lt_succ hj, ?_, ?_⟩
          · exact hj1
          · exact hj2
      · intro j hj
        cases j with
        | zero =>
          have hj' : 0 < (splitLoop S C O f (min (s + C) S - O) (i + 1)).length := by
            simpa using hj
          have h0 : ((⟨i, s, min (s + C) S⟩ : Chunk) ::
              splitLoop S C O f (min (s + C) S - O) (i + 1)).get ⟨1, hj⟩ =
              (splitLoop S C O f (min (s + C) S - O) (i + 1)).get ⟨0, hj'⟩ := rfl
          rw [h0]
          have hhead : (splitLoop S C O f (min (s + C) S - O) (i + 1)).get ⟨0, hj'⟩ = c' :=
            List.get_of_eq hL' ⟨0, hj'⟩
          rw [hhead]
          simpa using hc'start
        | succ j =>
          have hj' : j + 1 < (splitLoop S C O f (min (s + C) S - O) (i + 1)).length := by
            simpa using hj
          have := hadj j hj'
          exact this
      · have hne : splitLoop S C O f (min (s + C) S - O) (i + 1) ≠ [] := by
          rw [hL']
          exact List.cons_ne_nil _ _
        have h0 : ((⟨i, s, min (s + C) S⟩ : Chunk) ::
            splitLoop S C O f (min (s + C) S - O) (i + 1)).getLast? =
            (splitLoop S C O f (min (s + C) S - O) (i + 1)).getLast? := by
          rw [hL']
          simp [List.getLast?_cons_cons]
        rw [h0]
        exact hlast

/-- C1: for `O < C` and a non-empty source of `S` samples, the splitter's
chunk list satisfies `ChunksSpec`: contiguous 0-based indices, first chunk
at sample 0, gap-free coverage of `[0, S)`, each successor chunk starting
exactly `O` samples before its predecessor's end (in particular the claim's
weaker `≥ 0` allowance for the last pair), and final chunk ending at `S`. -/
theorem split_audio_file_spec (S C O : ℕ) (hO : O < C) (hS : 0 < S) :
    ChunksSpec S O (split_audio_file S C O) := by
  obtain ⟨⟨c, cs, hL, hstart⟩, hidx, hcov, hadj, hlast⟩ :=
    splitLoop_invariant S C O hO (S + 1) 0 0 hS (by omega)
  exact ⟨fun j hj => by simpa using hidx j hj, ⟨c, cs, hL, hstart⟩,
    fun t ht => hcov t (Nat.zero_le t) ht, hadj, hlast⟩

/-- Witness for C1 at `S = 5`, `C = 3`, `O = 1`. -/
theorem split_audio_file_spec_witness :
    (1 : ℕ) < 3 ∧ (0 : ℕ) < 5 ∧ ChunksSpec 5 1 (split_audio_file 5 3 1) :=
  ⟨by decide, by decide, split_audio_file_spec 5 3 1 (by decide) (by decide)⟩

/-- Once the start position has reached the end of the source, the loop
produces nothing, whatever the fuel. -/
lemma splitLoop_of_le (S C O f s i : ℕ) (h : S ≤ s) : splitLoop S C O f s i = [] := by
  cases f with
  | zero => rfl
  | succ f => rw [splitLoop, if_neg (by omega)]

/-- Fuel irrelevance: any two fuels of at least `S - s` compute the same
chunk list — the loop actually terminates after at most `S - s` iterations
when the overlap is smaller than the chunk size. -/
lemma splitLoop_fuel_irrelevant (S C O : ℕ) (hO : O < C) :
    ∀ f g s i, S - s ≤ f → S - s ≤ g →
      splitLoop S C O f s i = splitLoop S C O g s i := by
  intro f
  induction f with
  | zero =>
    intro g s i hf hg
    have hs : S ≤ s := by omega
    rw [splitLoop_of_le S C O 0 s i hs, splitLoop_of_le S C O g s i hs]
  | succ f ih =>
    intro g s i hf hg
    by_cases hs : s < S
    · obtain ⟨g', rfl⟩ : ∃ g', g = g' + 1 := ⟨g - 1, by omega⟩
      rw [splitLoop, splitLoop, if_pos hs, if_pos hs]
      by_cases hend : S ≤ min (s + C) S
      · rw [if_pos hend, if_pos hend]
      · rw [if_neg hend, if_neg hend,
          ih g' (min (s + C) S - O) (i + 1) (by omega) (by omega)]
    · rw [splitLoop_of_le S C O (f + 1) s i (by omega),
        splitLoop_of_le S C O g s i (by omega)]

/-- C10: with a computed chunk duration (always at least 60 s) and the fixed
3-second overlap, a positive sample rate gives `overlap_samples <
chunk_samples`; hence the loop's start position strictly increases at every
non-final iteration, and the loop terminates: every fuel of at least `S`
computes the same chunk list, which `split_audio_file` reaches with fuel
`S + 1`. -/
theorem split_loop_terminates (sample_rate : ℕ) (hsr : 1 ≤ sample_rate)
    (meta : Option (ℚ × ℚ)) (S : ℕ) :
    overlapSamplesOf sample_rate <
      chunkSamplesOf (calculate_chunk_duration meta) sample_rate ∧
    (∀ s, s + chunkSamplesOf (calculate_chunk_duration meta) sample_rate < S →
      s < s + chunkSamplesOf (calculate_chunk_duration meta) sample_rate -
        overlapSamplesOf sample_rate) ∧
    (∀ f g, S ≤ f → S ≤ g →
      splitLoop S (chunkSamplesOf (calculate_chunk_duration meta) sample_rate)
          (overlapSamplesOf sample_rate) f 0 0 =
        splitLoop S (chunkSamplesOf (calculate_chunk_duration meta) sample_rate)
          (overlapSamplesOf sample_rate) g 0 0) := by
  have h60 : (60 : ℚ) ≤ calculate_chunk_duration meta := (chunk_duration_bounds meta).1
  have hOC : overlapSamplesOf sample_rate <
      chunkSamplesOf (calculate_chunk_duration meta) sample_rate := by
    have hcast : ((60 * sample_rate : ℕ) : ℚ) ≤
        calculate_chunk_duration meta * (sample_rate : ℚ) := by
      push_cast
      have hsr0 : (0 : ℚ) ≤ (sample_rate : ℚ) := by positivity
      nlinarith
    have hfloor : (60 * sample_rate : ℕ) ≤
        (⌊calculate_chunk_duration meta * (sample_rate : ℚ)⌋).toNat := by
      have h1 : ((60 * sample_rate : ℕ) : ℤ) ≤
          ⌊calculate_chunk_duration meta * (sample_rate : ℚ)⌋ := by
        rw [Int.le_floor]
        exact_mod_cast hcast
      omega
    unfold overlapSamplesOf chunkSamplesOf CHUNK_OVERLAP_SECONDS
    omega
  refine ⟨hOC, fun s hs => by omega, fun f g hf hg => ?_⟩
  exact splitLoop_fuel_irrelevant S _ _ hOC f g 0 0 (by omega) (by omega)

/-- Witness for C10 at sample rate 1, unreadable metadata, `S = 7`. -/
theorem split_loop_terminates_witness :
    (1 : ℕ) ≤ 1 ∧
    overlapSamplesOf 1 < chunkSamplesOf (calculate_chunk_duration none) 1 ∧
    (∀ f g, (7 : ℕ) ≤ f → (7 : ℕ) ≤ g →
      splitLoop 7 (chunkSamplesOf (calculate_chunk_duration none) 1)
          (overlapSamplesOf 1) f 0 0 =
        splitLoop 7 (chunkSamplesOf (calculate_chunk_duration none) 1)
          (overlapSamplesOf 1) g 0 0) := by
  obtain ⟨h1, _, h3⟩ := split_loop_terminates 1 (by decide) none 7
  exact ⟨by decide, h1, h3⟩

/-- The chunk loop's collected transcripts are exactly the success entries,
at any starting index. -/
lemma collect_eq_successEntries_from {l : List (Option String)} :
    ∀ n : ℕ,
      ((List.enumFrom n l).filterMap fun p =>
        match p.2 with
        | some t => if t = "" then none else some (p.1, pyStrip t)
        | none => none) =
      ((List.enumFrom n l).filter (fun p => isChunkSuccess p.2)).map
        (fun p => (p.1, pyStrip (p.2.getD ""))) := by
  induction l with
  | nil => intro n; rfl
  | cons r rs ih =>
    intro n
    rw [show List.enumFrom n (r :: rs) = (n, r) :: List.enumFrom (n + 1) rs from rfl]
    cases r with
    | none =>
      simp only [List.filterMap_cons, List.filter_cons]
      rw [show isChunkSuccess none = false from rfl]
      simpa using ih (n + 1)
    | some t =>
      by_cases ht : t = ""
      · subst ht
        simp only [List.filterMap_cons, List.filter_cons]
        rw [show isChunkSuccess (some "") = false from by decide]
        simpa using ih (n + 1)
      · have hsucc : isChunkSuccess (some t) = true := by simp [isChunkSuccess, ht]
        simp only [List.filterMap_cons, List.filter_cons, hsucc, if_true, if_neg ht,
          List.map_cons]
        rw [ih (n + 1)]
        rfl

/-- Agreement: `collectTranscripts` and the claim-facing `successEntries` coincide. -/
lemma collect_eq_successEntries (results : List (Option String)) :
    collectTranscripts results = successEntries results :=
  collect_eq_successEntries_from 0

/-- The success entries keep strictly increasing chunk indices. -/
lemma successEntries_pairwise (results : List (Option String)) :
    (successEntries results).Pairwise (fun a b => a.1 < b.1) := by
  unfold successEntries
  refine List.pairwise_map.mpr ?_
  exact ((enum_pairwise_fst results).sublist (List.filter_sublist _))

/-- The filtered enumeration is empty exactly when every outcome fails. -/
lemma filter_enumFrom_eq_nil {l : List (Option String)} :
    ∀ n : ℕ,
      ((List.enumFrom n l).filter (fun p => isChunkSuccess p.2) = [] ↔
        ∀ r ∈ l, isChunkSuccess r = false) := by
  induction l with
  | nil => intro n; simp
  | cons r rs ih =>
    intro n
    rw [show List.enumFrom n (r :: rs) = (n, r) :: List.enumFrom (n + 1) rs from rfl]
    rw [List.filter_cons]
    by_cases h : isChunkSuccess r = true
    · constructor
      · intro hx
        exact absurd hx (by simp [h])
      · intro hall
        exact absurd (hall r (by simp)) (by simp [h])
    · have hf : isChunkSuccess r = false := by simpa using h
      rw [if_neg (by simp [hf])]
      rw [ih (n + 1)]
      constructor
      · intro hall r' hr'
        rcases List.mem_cons.mp hr' with h1 | h1
        · rw [h1]; exact hf
        · exact hall r' h1
      · intro hall r' hr'
        exact hall r' (List.mem_cons_of_mem _ hr')

/-- No success entries exist exactly when every chunk outcome is a failure. -/
lemma successEntries_eq_nil_iff (results : List (Option String)) :
    successEntries results = [] ↔ ∀ r ∈ results, isChunkSuccess r = false := by
  unfold successEntries
  rw [List.map_eq_nil_iff]
  exact filter_enumFrom_eq_nil 0

/-- C9: the multi-chunk aggregation returns no transcript exactly when no
chunk produced a (non-empty) transcription; whenever at least one chunk
succeeded, it returns the combination of exactly the successful chunks'
stripped texts, paired with their strictly ascending chunk indices. -/
theorem transcribe_large_file_core_spec (results : List (Option String))
    (h2 : 2 ≤ results.length) :
    (transcribe_large_file_core results = none ↔
      ∀ r ∈ results, isChunkSuccess r = false) ∧
    ((∃ r ∈ results, isChunkSuccess r = true) →
      transcribe_large_file_core results =
        some (_combine_transcripts (successEntries results))) ∧
    (successEntries results).Pairwise (fun a b => a.1 < b.1) ∧
    collectTranscripts results = successEntries results := by
  have hce := collect_eq_successEntries results
  refine ⟨?_, ?_, successEntries_pairwise results, hce⟩
  · simp only [transcribe_large_file_core, hce]
    split_ifs with h
    · simp only [true_iff]
      exact fun r hr => (successEntries_eq_nil_iff results).mp h r hr
    · constructor
      · intro hx
        exact absurd hx (by simp)
      · intro hall
        exact absurd ((successEntries_eq_nil_iff results).mpr hall) h
  · rintro ⟨r, hr, hsucc⟩
    simp only [transcribe_large_file_core, hce]
    rw [if_neg ?_]
    intro hnil
    have := (successEntries_eq_nil_iff results).mp hnil r hr
    rw [hsucc] at this
    exact absurd this (by simp)

/-- Witness for C9 at the outcome list `[none, some "hi"]`. -/
theorem transcribe_large_file_core_spec_witness :
    2 ≤ ([none, some "hi"] : List (Option String)).length ∧
    (∃ r ∈ ([none, some "hi"] : List (Option String)), isChunkSuccess r = true) ∧
    transcribe_large_file_core [none, some "hi"] =
      some (_combine_transcripts (successEntries [none, some "hi"])) := by
  have hmem : (some "hi") ∈ ([none, some "hi"] : List (Option String)) := by decide
  exact ⟨by decide, ⟨some "hi", hmem, by decide⟩,
    (transcribe_large_file_core_spec [none, some "hi"] (by decide)).2.1
      ⟨some "hi", hmem, by decide⟩⟩

end Whisnote
